import Mathlib

/-!
Verification development for the event-queue core of the orderbook program
(src/program/src/state.rs). The Rust code is shallowly embedded: machine
integers become Nat with explicit reduction modulo 2^64 where u64/usize
arithmetic wraps (the program is compiled in release mode, where overflow
wraps silently, as the specification itself notes for seq_num); byte
buffers become lists of Nat; Rust panics (slice index out of bounds,
unwrap on Err, unimplemented, unreachable, division by zero, modulus by
zero) become Option.none.
-/

/-- Modulus of u64 and of 64-bit usize arithmetic. -/
def u64Mod : Nat := 2 ^ 64

/-- Little-endian byte encoding of a natural number on w bytes, as produced
by the to_le_bytes calls in Event::serialize (a u64 or u128 value is encoded
on 8 or 16 bytes; values are reduced modulo 256^w by construction). -/
def leBytes (w n : Nat) : List Nat :=
  (List.range w).map fun i => n / 256 ^ i % 256

/-- Little-endian read of w bytes starting at offset off, as performed by
the from_le_bytes calls in Event::deserialize. Out-of-range reads yield 0;
every use in this file is guarded by an explicit length check mirroring the
panic behaviour of Rust slicing. -/
def readLE (buf : List Nat) (off w : Nat) : Nat :=
  ((List.range w).map fun i => buf.getD (off + i) 0 * 256 ^ i).sum

/-- Subslice buf[off..off+len], as produced by Rust slice indexing. -/
def sliceAt (buf : List Nat) (off len : Nat) : List Nat :=
  (buf.drop off).take len

/-- Overwrite buf starting at offset off with the bytes of data, leaving the
rest unchanged; this is what writing a serialized record into the slice
buf[off..off+k] does when data has length at most k. -/
def writeBytes (buf : List Nat) (off : Nat) (data : List Nat) : List Nat :=
  buf.take off ++ data ++ buf.drop (off + data.length)

/-- AccountTag from state.rs. -/
inductive AccountTag
  | Initialized
  | Market
  | EventQueue
  | Bids
  | Asks
deriving DecidableEq

/-- Side from state.rs, with FromPrimitive and ToPrimitive instances derived
from the repr(u8) discriminants Bid = 0, Ask = 1. -/
inductive Side
  | Bid
  | Ask
deriving DecidableEq

/-- ToPrimitive for Side: Side::to_u8. -/
def Side.to_u8 : Side → Nat
  | .Bid => 0
  | .Ask => 1

/-- FromPrimitive for Side: Side::from_u8; values other than 0 and 1 give
None, on which the unwrap in Event::deserialize panics. -/
def Side.from_u8 : Nat → Option Side
  | 0 => some .Bid
  | 1 => some .Ask
  | _ => none

/-- Side::opposite from state.rs. -/
def Side.opposite : Side → Side
  | .Bid => .Ask
  | .Ask => .Bid

/-- Event from state.rs. Numeric fields are u128 and u64 values; the
callback info fields are byte vectors. -/
inductive Event
  | Fill (taker_side : Side) (maker_order_id quote_size asset_size : Nat)
      (maker_callback_info taker_callback_info : List Nat)
  | Out (side : Side) (order_id asset_size : Nat) (callback_info : List Nat)
deriving DecidableEq

/-- Byte sequence written by Event::serialize: it writes the side byte, the
little-endian numeric fields and the callback info fields in order. Note
that the source writes no discriminant byte before the fields. -/
def Event.serializeBytes : Event → List Nat
  | .Fill taker_side maker_order_id quote_size asset_size
      maker_callback_info taker_callback_info =>
    taker_side.to_u8 :: (leBytes 16 maker_order_id ++ leBytes 8 quote_size ++
      leBytes 8 asset_size ++ maker_callback_info ++ taker_callback_info)
  | .Out side order_id asset_size callback_info =>
    side.to_u8 :: (leBytes 16 order_id ++ leBytes 8 asset_size ++ callback_info)

/-- Event::deserialize from state.rs. It reads buf[0] as a discriminant:
0 parses a Fill from the following bytes, 1 runs the unimplemented macro and
2 and above run the unreachable macro, both of which panic (none). The Fill
branch panics when the slice is shorter than 34 + 2 * callback_info_len
bytes or when the side byte buf[1] is not 0 or 1 (unwrap of from_u8). -/
def Event.deserialize (buf : List Nat) (callback_info_len : Nat) : Option Event :=
  if buf.length = 0 then none
  else
    match buf.getD 0 0 with
    | 0 =>
      if 34 + 2 * callback_info_len ≤ buf.length then
        match Side.from_u8 (buf.getD 1 0) with
        | some taker_side =>
          some (.Fill taker_side (readLE buf 2 16) (readLE buf 18 8) (readLE buf 26 8)
            (sliceAt buf 34 callback_info_len)
            (sliceAt buf (34 + callback_info_len) callback_info_len))
        | none => none
      else none
    | _ => none

/-- EventQueueHeader from state.rs; field order follows the source. -/
structure EventQueueHeader where
  tag : AccountTag
  head : Nat
  count : Nat
  event_size : Nat
  seq_num : Nat
  register_size : Nat
deriving DecidableEq

/-- EVENT_QUEUE_HEADER_LEN is size_of of EventQueueHeader in Rust: four u64
fields, one u32 field and a one-byte enum tag, padded to 8-byte alignment,
which is 40 bytes on the 64-bit target. -/
def EVENT_QUEUE_HEADER_LEN : Nat := 40

/-- Default for EventQueueHeader. The register size is ORDER_SUMMARY_SIZE + 1;
ORDER_SUMMARY_SIZE is declared in the orderbook module, which is not part of
the shown sources, so it is kept as a parameter (no claim depends on its
value). The relevant facts are event_size = 0 and zeroed counters. -/
def EventQueueHeader.default (order_summary_size : Nat) : EventQueueHeader :=
  { tag := .EventQueue
    head := 0
    count := 0
    event_size := 0
    seq_num := 0
    register_size := order_summary_size + 1 }

/-- EventQueue from state.rs: a detached header, the whole account byte
buffer, and the queue-wide callback info length. -/
structure EventQueue where
  header : EventQueueHeader
  buffer : List Nat
  callback_info_len : Nat
deriving DecidableEq

/-- Modelled from the spec: AoError lives in the error module, which is not
part of the shown sources; only the EventQueueEmpty variant is used by the
event queue (returned by pop_front on an empty queue). -/
inductive AoError
  | EventQueueEmpty
deriving DecidableEq

/-- Modelled from the spec: IoError is the decode-error type of the borsh
deserializer (from the critbit module, not part of the shown sources); a
malformed register tag is a decode error, not a panic. -/
inductive IoError
  | InvalidData
deriving DecidableEq

deriving instance DecidableEq for Except

/-- Register from state.rs: a tagged optional value. Borsh encodes it as a
one-byte discriminant (0 for Uninitialized, 1 for Initialized) followed by
the encoding of the payload. -/
inductive Register (T : Type)
  | Uninitialized
  | Initialized (v : T)
deriving DecidableEq

/-- EventQueue::new - attaches the header and buffer without touching the
buffer contents. -/
def EventQueue.new (header : EventQueueHeader) (account : List Nat)
    (callback_info_len : Nat) : EventQueue :=
  { header := header, buffer := account, callback_info_len := callback_info_len }

/-- EventQueue::get_buf_len: buffer length minus EVENT_QUEUE_HEADER_LEN minus
register_size, with the two usize subtractions wrapping modulo 2^64. -/
def EventQueue.get_buf_len (q : EventQueue) : Nat :=
  ((q.buffer.length % u64Mod + u64Mod - EVENT_QUEUE_HEADER_LEN) % u64Mod
    + u64Mod - q.header.register_size % u64Mod) % u64Mod

/-- Derived capacity of the queue in the sense of the specification:
floor(get_buf_len() / event_size). -/
def EventQueue.capacity (q : EventQueue) : Nat :=
  q.get_buf_len / q.header.event_size

/-- EventQueue::full: count == get_buf_len() / event_size. The division is a
Rust usize division, which panics when event_size is 0 (none). -/
def EventQueue.full (q : EventQueue) : Option Bool :=
  if q.header.event_size = 0 then none
  else some (decide (q.header.count = q.get_buf_len / q.header.event_size))

/-- EventQueue::gen_seq_num: returns the current seq_num and increments the
header field by 1 (u64 wrap). -/
def EventQueue.gen_seq_num (q : EventQueue) : Nat × EventQueue :=
  (q.header.seq_num,
    { q with header := { q.header with seq_num := (q.header.seq_num + 1) % u64Mod } })

/-- Bitwise complement of a u64 value s (for s < 2^64 this is the value of
the Rust expression bang s). -/
def u64Compl (s : Nat) : Nat := (u64Mod - 1) - s

/-- EventQueue::gen_order_id: draws a sequence number, shifts the limit
price into the high 64 bits and places the (complemented, for bids) sequence
number in the low 64 bits. -/
def EventQueue.gen_order_id (q : EventQueue) (limit_price : Nat) (side : Side) :
    Nat × EventQueue :=
  let sq := q.gen_seq_num
  let upper := limit_price <<< 64
  let lower := match side with
    | .Bid => u64Compl sq.1
    | .Ask => sq.1
  (upper ||| lower, sq.2)

/-- Write offset computed by EventQueue::push_back (its offset local):
EVENT_QUEUE_HEADER_LEN + ((register_size + head + count * event_size) mod
get_buf_len()), the u64 sum wrapping modulo 2^64. -/
def EventQueue.push_offset (q : EventQueue) : Nat :=
  EVENT_QUEUE_HEADER_LEN +
    ((q.header.register_size + q.header.head
      + q.header.count * q.header.event_size) % u64Mod) % q.get_buf_len

/-- EventQueue::push_back, using the write offset above. Returns none where
the source panics: division by zero inside full, modulus by zero when
get_buf_len() is 0, slice index out of range, or unwrap of a failed
write_all (serialized record longer than the slice). Otherwise it either
rejects the event (queue full) or serializes it at the write offset and
increments count and seq_num (u64 wrap). -/
def EventQueue.push_back (q : EventQueue) (event : Event) :
    Option (Except Event Unit × EventQueue) :=
  match q.full with
  | none => none
  | some true => some (.error event, q)
  | some false =>
    if q.get_buf_len = 0 then none
    else if q.push_offset + q.header.event_size ≤ q.buffer.length then
      if event.serializeBytes.length ≤ q.header.event_size then
        some (.ok (),
          { q with
            buffer := writeBytes q.buffer q.push_offset event.serializeBytes
            header := { q.header with
              count := (q.header.count + 1) % u64Mod
              seq_num := (q.header.seq_num + 1) % u64Mod } })
      else none
    else none

/-- Read offset computed by EventQueue::peek_front and EventQueue::pop_front
(their offset local): EVENT_QUEUE_HEADER_LEN + register_size + head. The
source takes no modulus here (the u64 addition still wraps at 2^64). -/
def EventQueue.read_offset (q : EventQueue) : Nat :=
  EVENT_QUEUE_HEADER_LEN + (q.header.register_size + q.header.head) % u64Mod

/-- EventQueue::peek_front. Reads the event at the read offset above without
mutating anything; none models a panic of the slice indexing or of
deserialize. -/
def EventQueue.peek_front (q : EventQueue) : Option (Option Event) :=
  if q.header.count = 0 then some none
  else
    if q.read_offset + q.header.event_size ≤ q.buffer.length then
      (Event.deserialize (sliceAt q.buffer q.read_offset q.header.event_size)
        q.callback_info_len).map some
    else none

/-- EventQueue::pop_front. Same read as peek_front, then count decreases by
1 and head becomes (head + 1) mod get_buf_len(). -/
def EventQueue.pop_front (q : EventQueue) :
    Option (Except AoError Event × EventQueue) :=
  if q.header.count = 0 then some (.error .EventQueueEmpty, q)
  else
    if q.read_offset + q.header.event_size ≤ q.buffer.length then
      match Event.deserialize (sliceAt q.buffer q.read_offset q.header.event_size)
          q.callback_info_len with
      | none => none
      | some event =>
        if q.get_buf_len = 0 then none
        else
          some (.ok event,
            { q with header := { q.header with
                count := q.header.count - 1
                head := ((q.header.head + 1) % u64Mod) % q.get_buf_len } })
    else none

/-- EventQueue::pop_n: caps the requested number at count, subtracts it from
count and advances head by it modulo get_buf_len(). -/
def EventQueue.pop_n (q : EventQueue) (number_of_entries_to_pop : Nat) :
    Option EventQueue :=
  let capped := min q.header.count number_of_entries_to_pop
  if q.get_buf_len = 0 then none
  else
    some { q with header := { q.header with
      count := q.header.count - capped
      head := ((q.header.head + capped) % u64Mod) % q.get_buf_len } }

/-- EventQueue::write_to_register, instantiated at T = u64 (borsh encodes a
u64 on 8 little-endian bytes). Serializes Register::Initialized(object) into
the window buffer[EVENT_QUEUE_HEADER_LEN .. EVENT_QUEUE_HEADER_LEN +
register_size]: one tag byte 1 followed by the payload. The slicing panics
when the window exceeds the buffer, and the unwrap panics when the window is
shorter than the 9 encoded bytes. -/
def EventQueue.write_to_register (q : EventQueue) (object : Nat) :
    Option EventQueue :=
  if EVENT_QUEUE_HEADER_LEN + q.header.register_size ≤ q.buffer.length then
    if 9 ≤ q.header.register_size then
      some { q with
        buffer := writeBytes q.buffer EVENT_QUEUE_HEADER_LEN (1 :: leBytes 8 object) }
    else none
  else none

/-- EventQueue::clear_register: serializes Register::Uninitialized (a single
0 tag byte) into the register window. -/
def EventQueue.clear_register (q : EventQueue) : Option EventQueue :=
  if EVENT_QUEUE_HEADER_LEN + q.header.register_size ≤ q.buffer.length then
    if 1 ≤ q.header.register_size then
      some { q with
        buffer := writeBytes q.buffer EVENT_QUEUE_HEADER_LEN [0] }
    else none
  else none

/-- EventQueue::read_register, instantiated at T = u64. Borsh-decodes the
register window: tag byte 0 gives Uninitialized, tag byte 1 followed by at
least 8 payload bytes gives Initialized, anything else is a decode error
(an Err value, not a panic). The slicing panics (none) when the window
exceeds the buffer. -/
def EventQueue.read_register (q : EventQueue) :
    Option (Except IoError (Register Nat)) :=
  if EVENT_QUEUE_HEADER_LEN + q.header.register_size ≤ q.buffer.length then
    if 1 ≤ q.header.register_size then
      match q.buffer.getD EVENT_QUEUE_HEADER_LEN 0 with
      | 0 => some (.ok .Uninitialized)
      | 1 =>
        if 9 ≤ q.header.register_size then
          some (.ok (.Initialized (readLE q.buffer (EVENT_QUEUE_HEADER_LEN + 1) 8)))
        else some (.error .InvalidData)
      | _ => some (.error .InvalidData)
    else some (.error .InvalidData)
  else none

/-- EventQueue::new_safe: construction followed by clear_register (the
account argument of the source carries the same byte buffer). -/
def EventQueue.new_safe (header : EventQueueHeader) (account : List Nat)
    (callback_info_len : Nat) : Option EventQueue :=
  (EventQueue.new header account callback_info_len).clear_register

/-- Well-formedness of a queue state: header fields hold values of their
Rust integer types and the buffer accommodates header and register and has a
usize length. -/
def EventQueue.Wf (q : EventQueue) : Prop :=
  q.header.head < u64Mod ∧ q.header.count < u64Mod ∧
  q.header.event_size < u64Mod ∧ q.header.seq_num < u64Mod ∧
  q.header.register_size < 2 ^ 32 ∧
  EVENT_QUEUE_HEADER_LEN + q.header.register_size ≤ q.buffer.length ∧
  q.buffer.length < u64Mod

instance (q : EventQueue) : Decidable q.Wf := by
  unfold EventQueue.Wf
  exact inferInstance

/-! ### Helper lemmas -/

theorem EventQueue.get_buf_len_eq (q : EventQueue) (hwf : q.Wf) :
    q.get_buf_len = q.buffer.length - EVENT_QUEUE_HEADER_LEN - q.header.register_size := by
  obtain ⟨-, -, -, -, h5, h6, h7⟩ := hwf
  simp only [EventQueue.get_buf_len, u64Mod, EVENT_QUEUE_HEADER_LEN] at h5 h6 h7 ⊢
  omega

theorem lor_high_low (p l : Nat) (hl : l < u64Mod) :
    (p <<< 64) ||| l = p * 2 ^ 64 + l := by
  rw [Nat.shiftLeft_eq, Nat.mul_comm p (2 ^ 64)]
  exact (Nat.mul_add_lt_is_or hl p).symm

theorem writeBytes_length (buf data : List Nat) (off : Nat)
    (h : off + data.length ≤ buf.length) :
    (writeBytes buf off data).length = buf.length := by
  unfold writeBytes
  simp [List.length_append, List.length_take, List.length_drop]
  omega

theorem writeBytes_getD (buf data : List Nat) (off i d : Nat)
    (hoff : off ≤ buf.length) (hi : i < data.length) :
    (writeBytes buf off data).getD (off + i) d = data.getD i d := by
  unfold writeBytes
  have hlt : (List.take off buf).length = off := by
    simp [List.length_take]
    omega
  simp only [List.getD_eq_getElem?_getD, List.getElem?_append, List.length_append,
    hlt, hi, Nat.add_sub_cancel_left]
  rw [if_pos (by omega), if_neg (by omega)]

theorem leBytes_getD (w v i : Nat) (hi : i < w) :
    (leBytes w v).getD i 0 = v / 256 ^ i % 256 := by
  unfold leBytes
  rw [List.getD_eq_getElem?_getD, List.getElem?_map, List.getElem?_range hi]
  rfl

theorem readLE_of_getD (w : Nat) (buf : List Nat) (off v : Nat)
    (h : ∀ i, i < w → buf.getD (off + i) 0 = v / 256 ^ i % 256) :
    readLE buf off w = v % 256 ^ w := by
  induction w with
  | zero => simp [readLE, Nat.mod_one]
  | succ w ih =>
    unfold readLE at *
    rw [List.range_succ, List.map_append, List.sum_append]
    rw [ih (fun i hi => h i (Nat.lt_succ_of_lt hi))]
    simp only [List.map_cons, List.map_nil, List.sum_cons, List.sum_nil]
    rw [h w (Nat.lt_succ_self w)]
    rw [pow_succ, Nat.mod_mul]
    ring

theorem EventQueue.full_eq (q : EventQueue) (hes : q.header.event_size ≠ 0) :
    q.full = some (decide (q.header.count = q.capacity)) := by
  unfold EventQueue.full EventQueue.capacity
  rw [if_neg hes]

theorem EventQueue.full_true (q : EventQueue) (h : q.full = some true) :
    q.header.event_size ≠ 0 ∧ q.header.count = q.capacity := by
  unfold EventQueue.full at h
  split at h
  · exact absurd h (by simp)
  · simp only [Option.some.injEq, decide_eq_true_eq] at h
    exact ⟨by assumption, h⟩

theorem EventQueue.full_false (q : EventQueue) (h : q.full = some false) :
    q.header.event_size ≠ 0 ∧ q.header.count ≠ q.capacity := by
  unfold EventQueue.full at h
  split at h
  · exact absurd h (by simp)
  · simp only [Option.some.injEq, decide_eq_false_iff_not] at h
    exact ⟨by assumption, h⟩

theorem EventQueue.push_back_ok (q : EventQueue) (e : Event)
    (hes : q.header.event_size ≠ 0) (hne : q.header.count ≠ q.capacity)
    (hbl : q.get_buf_len ≠ 0)
    (hfit : q.push_offset + q.header.event_size ≤ q.buffer.length)
    (hser : e.serializeBytes.length ≤ q.header.event_size) :
    q.push_back e = some (.ok (),
      { q with
        buffer := writeBytes q.buffer q.push_offset e.serializeBytes
        header := { q.header with
          count := (q.header.count + 1) % u64Mod
          seq_num := (q.header.seq_num + 1) % u64Mod } }) := by
  simp only [EventQueue.push_back, q.full_eq hes, decide_eq_false hne,
    if_neg hbl, if_pos hfit, if_pos hser]

theorem EventQueue.push_back_error_characterization (q : EventQueue) (e er : Event)
    (x : Except Event Unit) (r : EventQueue)
    (hpush : q.push_back e = some (x, r)) (hx : x = .error er) :
    q.full = some true ∧ er = e ∧ r = q := by
  subst hx
  cases hq : q.full with
  | none => simp [EventQueue.push_back, hq] at hpush
  | some b =>
    cases b with
    | true =>
      simp only [EventQueue.push_back, hq, Option.some.injEq, Prod.mk.injEq,
        Except.error.injEq] at hpush
      exact ⟨rfl, hpush.1.symm, hpush.2.symm⟩
    | false =>
      simp only [EventQueue.push_back, hq] at hpush
      split at hpush
      · exact absurd hpush (by simp)
      · split at hpush
        · split at hpush
          · exact absurd hpush (by simp)
          · exact absurd hpush (by simp)
        · exact absurd hpush (by simp)

/-! ### Claim C1 -/

def c1EventAsk : Event := .Fill .Ask 1 2 3 [] []

def c1EventBid : Event := .Fill .Bid 0 5 0 [] []

/-- C1 (code bug): the claimed codec round trip fails on the code.
Event::serialize writes no discriminant byte, so the serialized Fill record
begins with the taker-side byte (here 0x01, not the claimed 0x00), and
Event::deserialize misreads that first byte as the discriminant: for an
Ask-taker fill it lands on the branch that runs the unimplemented macro and
panics, and even a Bid-taker fill does not round-trip because the record is
one byte shorter than the layout deserialize expects. -/
theorem c1_round_trip_fails :
    (Event.serializeBytes c1EventAsk).getD 0 0 = 1 ∧
    Event.deserialize (Event.serializeBytes c1EventAsk) 0 = none ∧
    Event.deserialize (Event.serializeBytes c1EventBid) 0 ≠ some c1EventBid :=
  ⟨by decide, by decide, by decide⟩

/-! ### Claim C2 -/

def c2Queue : EventQueue :=
  ⟨⟨.EventQueue, 0, 0, 34, 0, 0⟩, List.replicate 108 0, 0⟩

def c2Event : Event := .Fill .Ask 1 2 3 [] []

def c2QueueAfter : EventQueue :=
  ⟨⟨.EventQueue, 0, 1, 34, 1, 0⟩,
    writeBytes (List.replicate 108 0) 40 c2Event.serializeBytes, 0⟩

/-- C2 (code bug): FIFO delivery fails already for a single event. On a
fresh queue (event_size 34, callback_info_len 0, capacity 2) push_back of
the fill e1 succeeds, but the following pop_front panics instead of
returning e1: the stored bytes start with the taker-side byte 0x01 (the
serializer wrote no discriminant), which deserialize treats as the Out
discriminant and runs the unimplemented macro. -/
theorem c2_fifo_fails :
    c2Queue.push_back c2Event = some (.ok (), c2QueueAfter) ∧
    c2QueueAfter.pop_front = none :=
  ⟨by decide, by decide⟩

/-! ### Claim C9 -/

/-- C9: error results leave the state unchanged: pop_front on an empty queue
returns the EventQueueEmpty error together with the unchanged state, and
push_back on a full queue returns the rejected event unchanged together with
the unchanged state. -/
theorem c9_error_paths (q : EventQueue) (e : Event) :
    (q.header.count = 0 →
      q.pop_front = some (.error .EventQueueEmpty, q)) ∧
    (q.full = some true → q.push_back e = some (.error e, q)) := by
  constructor
  · intro h
    unfold EventQueue.pop_front
    rw [if_pos h]
  · intro h
    simp only [EventQueue.push_back, h]

def c9Queue : EventQueue := ⟨⟨.EventQueue, 0, 0, 1, 0, 0⟩, List.replicate 40 0, 0⟩

def c9Event : Event := .Out .Bid 0 0 []

theorem c9_witness :
    c9Queue.header.count = 0 ∧ c9Queue.full = some true ∧
    c9Queue.pop_front = some (.error .EventQueueEmpty, c9Queue) ∧
    c9Queue.push_back c9Event = some (.error c9Event, c9Queue) :=
  ⟨by decide, by decide,
    (c9_error_paths c9Queue c9Event).1 (by decide),
    (c9_error_paths c9Queue c9Event).2 (by decide)⟩

/-! ### Claim C10 -/

/-- C10: full is total exactly on queues with event_size at least 1, because
it divides get_buf_len() by event_size; a default-constructed header has
event_size = 0, so full on a queue built from a default header performs a
division by zero (a panic, modelled as none), and push_back, which calls
full first, panics the same way. -/
theorem c10_full_division_by_zero :
    (∀ order_summary_size,
      (EventQueueHeader.default order_summary_size).event_size = 0) ∧
    (∀ q : EventQueue, q.full.isSome ↔ 1 ≤ q.header.event_size) ∧
    (∀ order_summary_size account cbl,
      (EventQueue.new (EventQueueHeader.default order_summary_size)
        account cbl).full = none) ∧
    (∀ order_summary_size account cbl e,
      (EventQueue.new (EventQueueHeader.default order_summary_size)
        account cbl).push_back e = none) := by
  refine ⟨fun _ => rfl, fun q => ?_, fun _ _ _ => rfl, fun _ _ _ _ => rfl⟩
  by_cases h : q.header.event_size = 0
  · simp [EventQueue.full, h]
  · simp only [EventQueue.full, if_neg h, Option.isSome_some, true_iff]
    omega

/-! ### Claim C3 -/

/-- C3: capacity bound. With event_size at least 1 and a well-formed buffer,
full() is true exactly when count equals floor(get_buf_len()/event_size);
push_back returns the Err rejection exactly when count equals that capacity
(it errs whenever count = capacity, and an Err result implies count =
capacity); and whenever count < capacity it succeeds - provided the record
fits its slot and the slot fits the buffer, the ambient well-formedness the
specification itself demands of events and buffers - increasing count by
exactly 1. -/
theorem c3_capacity_bound (q : EventQueue) (e : Event) (hwf : q.Wf)
    (hes : 1 ≤ q.header.event_size) :
    (q.full = some true ↔ q.header.count = q.capacity) ∧
    (q.header.count = q.capacity → q.push_back e = some (.error e, q)) ∧
    (∀ x r, q.push_back e = some (x, r) → x = .error e →
      q.header.count = q.capacity) ∧
    (q.header.count < q.capacity →
      e.serializeBytes.length ≤ q.header.event_size →
      q.push_offset + q.header.event_size ≤ q.buffer.length →
      ∃ r, q.push_back e = some (.ok (), r) ∧
        r.header.count = q.header.count + 1) := by
  have hes' : q.header.event_size ≠ 0 := by omega
  have hfeq := q.full_eq hes'
  refine ⟨?_, ?_, ?_, ?_⟩
  · rw [hfeq]
    simp
  · intro h
    exact (c9_error_paths q e).2 (by rw [hfeq, h]; simp)
  · intro x r hpush hx
    have h := q.push_back_error_characterization e e x r hpush hx
    exact (q.full_true h.1).2
  · intro hlt hser hfit
    have hbl : q.get_buf_len ≠ 0 := by
      intro hb
      have : q.capacity = 0 := by
        unfold EventQueue.capacity
        rw [hb, Nat.zero_div]
      omega
    refine ⟨_, q.push_back_ok e hes' (by omega) hbl hfit hser, ?_⟩
    have hble := q.get_buf_len_eq hwf
    have hcap : q.capacity ≤ q.get_buf_len := Nat.div_le_self _ _
    obtain ⟨-, -, -, -, -, -, h7⟩ := hwf
    simp only [u64Mod] at h7 ⊢
    show (q.header.count + 1) % 2 ^ 64 = q.header.count + 1
    apply Nat.mod_eq_of_lt
    omega

def c3Queue : EventQueue :=
  ⟨⟨.EventQueue, 0, 0, 34, 0, 0⟩, List.replicate 108 0, 0⟩

def c3Event : Event := .Fill .Bid 0 0 0 [] []

theorem c3_witness :
    c3Queue.Wf ∧ 1 ≤ c3Queue.header.event_size ∧
    (c3Queue.full = some true ↔ c3Queue.header.count = c3Queue.capacity) :=
  ⟨by decide, by decide, (c3_capacity_bound c3Queue c3Event (by decide) (by decide)).1⟩

/-! ### Claim C7 -/

/-- C7: push_back write-offset arithmetic. On a non-full well-formed queue
(with the slot fitting the buffer, the record fitting the slot, and no
wraparound of count or seq_num), push_back writes the serialized event
exactly at offset EVENT_QUEUE_HEADER_LEN + ((register_size + head + count *
event_size) mod get_buf_len()), where get_buf_len() is the buffer length
minus header and register sizes - so the modulus wraps at the logical
length, not the raw buffer length - and increments count and seq_num by 1. -/
theorem c7_push_write_offset (q : EventQueue) (e : Event) (hwf : q.Wf)
    (hfull : q.full = some false) (hbl : q.get_buf_len ≠ 0)
    (hfit : q.push_offset + q.header.event_size ≤ q.buffer.length)
    (hser : e.serializeBytes.length ≤ q.header.event_size)
    (hc : q.header.count + 1 < u64Mod) (hs : q.header.seq_num + 1 < u64Mod) :
    q.push_offset = EVENT_QUEUE_HEADER_LEN +
      ((q.header.register_size + q.header.head
        + q.header.count * q.header.event_size) % u64Mod) % q.get_buf_len ∧
    q.get_buf_len =
      q.buffer.length - EVENT_QUEUE_HEADER_LEN - q.header.register_size ∧
    q.push_back e = some (.ok (),
      { q with
        buffer := writeBytes q.buffer q.push_offset e.serializeBytes
        header := { q.header with
          count := q.header.count + 1
          seq_num := q.header.seq_num + 1 } }) := by
  obtain ⟨hes, hne⟩ := q.full_false hfull
  refine ⟨rfl, q.get_buf_len_eq hwf, ?_⟩
  have h := q.push_back_ok e hes hne hbl hfit hser
  rwa [Nat.mod_eq_of_lt hc, Nat.mod_eq_of_lt hs] at h

def c7Queue : EventQueue :=
  ⟨⟨.EventQueue, 0, 1, 34, 5, 3⟩, List.replicate 145 7, 0⟩

def c7Event : Event := .Fill .Bid 11 22 33 [] []

set_option maxRecDepth 10000 in
theorem c7_witness :
    c7Queue.Wf ∧ c7Queue.full = some false ∧ c7Queue.get_buf_len ≠ 0 ∧
    c7Queue.push_offset + c7Queue.header.event_size ≤ c7Queue.buffer.length ∧
    c7Event.serializeBytes.length ≤ c7Queue.header.event_size ∧
    c7Queue.header.count + 1 < u64Mod ∧ c7Queue.header.seq_num + 1 < u64Mod ∧
    c7Queue.push_back c7Event = some (.ok (),
      { c7Queue with
        buffer := writeBytes c7Queue.buffer c7Queue.push_offset
          c7Event.serializeBytes
        header := { c7Queue.header with
          count := c7Queue.header.count + 1
          seq_num := c7Queue.header.seq_num + 1 } }) :=
  ⟨by decide, by decide, by decide, by decide, by decide, by decide, by decide,
    (c7_push_write_offset c7Queue c7Event (by decide) (by decide) (by decide)
      (by decide) (by decide) (by decide) (by decide)).2.2⟩

/-! ### Claim C4 -/

theorem gen_order_id_bid (qq : EventQueue) (p : Nat) :
    (qq.gen_order_id p .Bid).1 = p * 2 ^ 64 + u64Compl qq.header.seq_num := by
  simp only [EventQueue.gen_order_id, EventQueue.gen_seq_num]
  exact lor_high_low p _ (by simp only [u64Compl, u64Mod]; omega)

theorem gen_order_id_ask (qq : EventQueue) (p : Nat)
    (hlt : qq.header.seq_num < u64Mod) :
    (qq.gen_order_id p .Ask).1 = p * 2 ^ 64 + qq.header.seq_num := by
  simp only [EventQueue.gen_order_id, EventQueue.gen_seq_num]
  exact lor_high_low p _ hlt

/-- C4: order-identifier generation and ordering. gen_order_id returns the
limit price in the high 64 bits with, in the low 64 bits, the bitwise
complement of the pre-increment seq_num for a bid and the raw seq_num for an
ask, and increments seq_num by 1 (u64 wrap). Consequently, absent seq_num
wraparound between the two mints (the earlier queue state q has the smaller
seq_num): at equal price the earlier-minted bid id is larger and the
earlier-minted ask id is smaller; and across different prices the higher
price p1 yields the larger id for any two well-formed states and any two
sides - the final conjunct quantifies over both minting states, so it covers
the higher-priced order being minted earlier or later alike. -/
theorem c4_gen_order_id (q q2 : EventQueue) (limit_price p1 p2 : Nat)
    (side : Side)
    (_hp : limit_price < u64Mod) (_hp1 : p1 < u64Mod)
    (hs : q.header.seq_num < u64Mod) (hs2 : q2.header.seq_num < u64Mod)
    (hseq : q.header.seq_num < q2.header.seq_num) (hpp : p2 < p1) :
    ((q.gen_order_id limit_price .Bid).1 =
      limit_price * 2 ^ 64 + u64Compl q.header.seq_num) ∧
    ((q.gen_order_id limit_price .Ask).1 =
      limit_price * 2 ^ 64 + q.header.seq_num) ∧
    ((q.gen_order_id limit_price side).2 =
      { q with header := { q.header with
          seq_num := (q.header.seq_num + 1) % u64Mod } }) ∧
    ((q.gen_order_id limit_price .Bid).1 >
      (q2.gen_order_id limit_price .Bid).1) ∧
    ((q.gen_order_id limit_price .Ask).1 <
      (q2.gen_order_id limit_price .Ask).1) ∧
    (∀ (r r2 : EventQueue) (side1 side2 : Side),
      r.header.seq_num < u64Mod → r2.header.seq_num < u64Mod →
      (r.gen_order_id p1 side1).1 > (r2.gen_order_id p2 side2).1) := by
  refine ⟨gen_order_id_bid q limit_price, gen_order_id_ask q limit_price hs,
    rfl, ?_, ?_, ?_⟩
  · rw [gen_order_id_bid q limit_price, gen_order_id_bid q2 limit_price]
    simp only [u64Compl, u64Mod] at *
    omega
  · rw [gen_order_id_ask q limit_price hs, gen_order_id_ask q2 limit_price hs2]
    omega
  · intro r r2 side1 side2 h1 h2
    cases side1 <;> cases side2 <;>
      [rw [gen_order_id_bid r p1, gen_order_id_bid r2 p2];
       rw [gen_order_id_bid r p1, gen_order_id_ask r2 p2 h2];
       rw [gen_order_id_ask r p1 h1, gen_order_id_bid r2 p2];
       rw [gen_order_id_ask r p1 h1, gen_order_id_ask r2 p2 h2]] <;>
      simp only [u64Compl, u64Mod] at * <;> omega

def c4QueueA : EventQueue := ⟨⟨.EventQueue, 0, 0, 1, 0, 0⟩, List.replicate 41 0, 0⟩

def c4QueueB : EventQueue := ⟨⟨.EventQueue, 0, 0, 1, 1, 0⟩, List.replicate 41 0, 0⟩

theorem c4_witness :
    (7 < u64Mod ∧ 6 < u64Mod ∧ c4QueueA.header.seq_num < u64Mod ∧
      c4QueueB.header.seq_num < u64Mod ∧
      c4QueueA.header.seq_num < c4QueueB.header.seq_num ∧ 5 < 6) ∧
    ((c4QueueA.gen_order_id 7 .Bid).1 > (c4QueueB.gen_order_id 7 .Bid).1 ∧
     (c4QueueA.gen_order_id 7 .Ask).1 < (c4QueueB.gen_order_id 7 .Ask).1 ∧
     (c4QueueA.gen_order_id 6 .Ask).1 > (c4QueueB.gen_order_id 5 .Bid).1 ∧
     (c4QueueB.gen_order_id 6 .Bid).1 > (c4QueueA.gen_order_id 5 .Ask).1) :=
  ⟨⟨by decide, by decide, by decide, by decide, by decide, by decide⟩,
    (c4_gen_order_id c4QueueA c4QueueB 7 6 5 .Ask (by decide)
      (by decide) (by decide) (by decide) (by decide) (by decide)).2.2.2.1,
    (c4_gen_order_id c4QueueA c4QueueB 7 6 5 .Ask (by decide)
      (by decide) (by decide) (by decide) (by decide) (by decide)).2.2.2.2.1,
    (c4_gen_order_id c4QueueA c4QueueB 7 6 5 .Ask (by decide)
      (by decide) (by decide) (by decide) (by decide) (by decide)).2.2.2.2.2
      c4QueueA c4QueueB .Ask .Bid (by decide) (by decide),
    (c4_gen_order_id c4QueueA c4QueueB 7 6 5 .Ask (by decide)
      (by decide) (by decide) (by decide) (by decide) (by decide)).2.2.2.2.2
      c4QueueB c4QueueA .Bid .Ask (by decide) (by decide)⟩

/-! ### Claim C5 -/

theorem EventQueue.push_back_cases (q : EventQueue) (e : Event)
    (x : Except Event Unit) (r : EventQueue)
    (hpush : q.push_back e = some (x, r)) :
    (x = .error e ∧ r = q) ∨
    (x = .ok () ∧ q.full = some false ∧ q.get_buf_len ≠ 0 ∧
      q.push_offset + q.header.event_size ≤ q.buffer.length ∧
      e.serializeBytes.length ≤ q.header.event_size ∧
      r = { q with
        buffer := writeBytes q.buffer q.push_offset e.serializeBytes
        header := { q.header with
          count := (q.header.count + 1) % u64Mod
          seq_num := (q.header.seq_num + 1) % u64Mod } }) := by
  cases hq : q.full with
  | none => simp [EventQueue.push_back, hq] at hpush
  | some b =>
    cases b with
    | true =>
      simp only [EventQueue.push_back, hq, Option.some.injEq, Prod.mk.injEq] at hpush
      exact Or.inl ⟨hpush.1.symm, hpush.2.symm⟩
    | false =>
      simp only [EventQueue.push_back, hq] at hpush
      split at hpush
      · exact absurd hpush (by simp)
      next hbl =>
        split at hpush
        next hfit =>
          split at hpush
          next hser =>
            simp only [Option.some.injEq, Prod.mk.injEq] at hpush
            exact Or.inr ⟨hpush.1.symm, rfl, hbl, hfit, hser, hpush.2.symm⟩
          · exact absurd hpush (by simp)
        · exact absurd hpush (by simp)

theorem EventQueue.pop_front_cases (q : EventQueue)
    (x : Except AoError Event) (r : EventQueue)
    (hpop : q.pop_front = some (x, r)) :
    (q.header.count = 0 ∧ x = .error .EventQueueEmpty ∧ r = q) ∨
    (q.header.count ≠ 0 ∧ q.get_buf_len ≠ 0 ∧
      r = { q with header := { q.header with
        count := q.header.count - 1
        head := ((q.header.head + 1) % u64Mod) % q.get_buf_len } }) := by
  unfold EventQueue.pop_front at hpop
  split at hpop
  next hc =>
    simp only [Option.some.injEq, Prod.mk.injEq] at hpop
    exact Or.inl ⟨hc, hpop.1.symm, hpop.2.symm⟩
  next hc =>
    split at hpop
    next hfit =>
      split at hpop
      · exact absurd hpop (by simp)
      next ev heq =>
        split at hpop
        · exact absurd hpop (by simp)
        next hbl =>
          simp only [Option.some.injEq, Prod.mk.injEq] at hpop
          exact Or.inr ⟨hc, hbl, hpop.2.symm⟩
    · exact absurd hpop (by simp)

theorem EventQueue.pop_n_some (q : EventQueue) (n : Nat) (r : EventQueue)
    (hpop : q.pop_n n = some r) :
    q.get_buf_len ≠ 0 ∧
    r = { q with header := { q.header with
      count := q.header.count - min q.header.count n
      head := ((q.header.head + min q.header.count n) % u64Mod)
        % q.get_buf_len } } := by
  unfold EventQueue.pop_n at hpop
  split at hpop
  · exact absurd hpop (by simp)
  next hbl =>
    simp only [Option.some.injEq] at hpop
    exact ⟨hbl, hpop.symm⟩

theorem EventQueue.get_buf_len_congr (q r : EventQueue)
    (hlen : r.buffer.length = q.buffer.length)
    (hreg : r.header.register_size = q.header.register_size) :
    r.get_buf_len = q.get_buf_len := by
  unfold EventQueue.get_buf_len
  rw [hlen, hreg]

theorem EventQueue.capacity_congr (q r : EventQueue)
    (hlen : r.buffer.length = q.buffer.length)
    (hreg : r.header.register_size = q.header.register_size)
    (hes : r.header.event_size = q.header.event_size) :
    r.capacity = q.capacity := by
  unfold EventQueue.capacity
  rw [EventQueue.get_buf_len_congr q r hlen hreg, hes]

/-- Invariant exactly as the claim states it: count bounded by capacity and
head strictly below capacity = floor(buffer_length / event_size). -/
def EventQueue.HeadCapInv (q : EventQueue) : Prop :=
  q.header.count ≤ q.capacity ∧ q.header.head < q.capacity

instance (q : EventQueue) : Decidable q.HeadCapInv := by
  unfold EventQueue.HeadCapInv
  exact inferInstance

def c5Queue : EventQueue :=
  ⟨⟨.EventQueue, 1, 1, 34, 0, 0⟩, List.replicate 108 0, 0⟩

def c5QueueAfter : EventQueue :=
  ⟨⟨.EventQueue, 2, 0, 34, 0, 0⟩, List.replicate 108 0, 0⟩

/-- C5 counterexample: pop_front breaks the claimed invariant head <
capacity. The queue has get_buf_len() = 68, event_size = 34, capacity = 2,
head = 1 and count = 1, so the claimed invariant holds before the call;
pop_front succeeds and advances head by one byte to 2 = capacity, violating
head < capacity (head is a byte offset wrapped at get_buf_len(), not a slot
index below capacity). -/
theorem c5_counterexample :
    c5Queue.HeadCapInv ∧
    c5Queue.pop_front = some (.ok (.Fill .Bid 0 0 0 [] []), c5QueueAfter) ∧
    ¬ c5QueueAfter.HeadCapInv :=
  ⟨by decide, by decide, by decide⟩

/-- Amended invariant: count stays bounded by capacity, while head is
bounded by the logical buffer length get_buf_len() (the quantity the code
actually wraps head at), not by capacity. -/
def EventQueue.Inv (q : EventQueue) : Prop :=
  q.header.count ≤ q.capacity ∧ q.header.head < q.get_buf_len

instance (q : EventQueue) : Decidable q.Inv := by
  unfold EventQueue.Inv
  exact inferInstance

/-- Sequence-number monotonicity modulo silent 64-bit wraparound: one
operation leaves seq_num unchanged or advances it by 1 modulo 2^64. -/
def seqMono (q r : EventQueue) : Prop :=
  r.header.seq_num = q.header.seq_num ∨
  r.header.seq_num = (q.header.seq_num + 1) % u64Mod


/-- C5 as amended by the counterexample: from a well-formed state satisfying
count ≤ capacity and head < get_buf_len() (instead of the claimed head <
capacity, which pop_front violates), every result state of push_back,
pop_front, pop_n and gen_order_id again satisfies count ≤ capacity and head
< get_buf_len(), and seq_num is unchanged or advanced by 1 modulo 2^64. -/
theorem c5_invariant_preservation (q : EventQueue) (e : Event)
    (n limit_price : Nat) (side : Side) (hwf : q.Wf) (hinv : q.Inv) :
    (∀ x r, q.push_back e = some (x, r) → r.Inv ∧ seqMono q r) ∧
    (∀ x r, q.pop_front = some (x, r) → r.Inv ∧ seqMono q r) ∧
    (∀ r, q.pop_n n = some r → r.Inv ∧ seqMono q r) ∧
    ((q.gen_order_id limit_price side).2.Inv ∧
      seqMono q (q.gen_order_id limit_price side).2) := by
  obtain ⟨hinv1, hinv2⟩ := hinv
  have hble := q.get_buf_len_eq hwf
  have hcap : q.capacity ≤ q.get_buf_len := Nat.div_le_self _ _
  obtain ⟨hw1, hw2, hw3, hw4, hw5, hw6, hw7⟩ := hwf
  have hblm : q.get_buf_len < u64Mod := by omega
  refine ⟨?_, ?_, ?_, ?_, ?_⟩
  · intro x r hpush
    rcases q.push_back_cases e x r hpush with ⟨-, hr⟩ | ⟨-, hq, hbl, hfit, hser, hr⟩
    · subst hr
      exact ⟨⟨hinv1, hinv2⟩, Or.inl rfl⟩
    · obtain ⟨-, hne⟩ := q.full_false hq
      have hlen : (writeBytes q.buffer q.push_offset e.serializeBytes).length
          = q.buffer.length := writeBytes_length _ _ _ (by omega)
      have hrblen : r.buffer.length = q.buffer.length := by rw [hr]; exact hlen
      have hrreg : r.header.register_size = q.header.register_size := by rw [hr]
      have hres : r.header.event_size = q.header.event_size := by rw [hr]
      have hrc : r.header.count = (q.header.count + 1) % u64Mod := by rw [hr]
      have hrh : r.header.head = q.header.head := by rw [hr]
      have hrs : r.header.seq_num = (q.header.seq_num + 1) % u64Mod := by rw [hr]
      have hcapr : r.capacity = q.capacity :=
        EventQueue.capacity_congr q r hrblen hrreg hres
      have hglbr : r.get_buf_len = q.get_buf_len :=
        EventQueue.get_buf_len_congr q r hrblen hrreg
      refine ⟨⟨?_, ?_⟩, Or.inr hrs⟩
      · rw [hrc, hcapr, Nat.mod_eq_of_lt (by omega)]
        omega
      · rw [hrh, hglbr]
        exact hinv2
  · intro x r hpop
    rcases q.pop_front_cases x r hpop with ⟨-, -, hr⟩ | ⟨-, hbl, hr⟩
    · subst hr
      exact ⟨⟨hinv1, hinv2⟩, Or.inl rfl⟩
    · have hrblen : r.buffer.length = q.buffer.length := by rw [hr]
      have hrreg : r.header.register_size = q.header.register_size := by rw [hr]
      have hres : r.header.event_size = q.header.event_size := by rw [hr]
      have hrc : r.header.count = q.header.count - 1 := by rw [hr]
      have hrh : r.header.head
          = ((q.header.head + 1) % u64Mod) % q.get_buf_len := by rw [hr]
      have hrs : r.header.seq_num = q.header.seq_num := by rw [hr]
      have hcapr : r.capacity = q.capacity :=
        EventQueue.capacity_congr q r hrblen hrreg hres
      have hglbr : r.get_buf_len = q.get_buf_len :=
        EventQueue.get_buf_len_congr q r hrblen hrreg
      refine ⟨⟨?_, ?_⟩, Or.inl hrs⟩
      · rw [hrc, hcapr]
        omega
      · rw [hrh, hglbr]
        exact Nat.mod_lt _ (Nat.pos_of_ne_zero hbl)
  · intro r hpop
    obtain ⟨hbl, hr⟩ := q.pop_n_some n r hpop
    have hrblen : r.buffer.length = q.buffer.length := by rw [hr]
    have hrreg : r.header.register_size = q.header.register_size := by rw [hr]
    have hres : r.header.event_size = q.header.event_size := by rw [hr]
    have hrc : r.header.count
        = q.header.count - min q.header.count n := by rw [hr]
    have hrh : r.header.head
        = ((q.header.head + min q.header.count n) % u64Mod) % q.get_buf_len := by
      rw [hr]
    have hrs : r.header.seq_num = q.header.seq_num := by rw [hr]
    have hcapr : r.capacity = q.capacity :=
      EventQueue.capacity_congr q r hrblen hrreg hres
    have hglbr : r.get_buf_len = q.get_buf_len :=
      EventQueue.get_buf_len_congr q r hrblen hrreg
    refine ⟨⟨?_, ?_⟩, Or.inl hrs⟩
    · rw [hrc, hcapr]
      omega
    · rw [hrh, hglbr]
      exact Nat.mod_lt _ (Nat.pos_of_ne_zero hbl)
  · have hcapr : (q.gen_order_id limit_price side).2.capacity = q.capacity :=
      EventQueue.capacity_congr q _ rfl rfl rfl
    have hglbr : (q.gen_order_id limit_price side).2.get_buf_len = q.get_buf_len :=
      EventQueue.get_buf_len_congr q _ rfl rfl
    constructor
    · show (q.gen_order_id limit_price side).2.header.count ≤ _
      rw [hcapr]
      exact hinv1
    · show (q.gen_order_id limit_price side).2.header.head < _
      rw [hglbr]
      exact hinv2
  · exact Or.inr rfl

def c5wQueue : EventQueue :=
  ⟨⟨.EventQueue, 0, 0, 34, 0, 0⟩, List.replicate 108 0, 0⟩

theorem c5_witness :
    c5wQueue.Wf ∧ c5wQueue.Inv ∧
    ((c5wQueue.gen_order_id 3 .Bid).2.Inv ∧
      seqMono c5wQueue (c5wQueue.gen_order_id 3 .Bid).2) :=
  ⟨by decide, by decide,
    (c5_invariant_preservation c5wQueue (.Out .Bid 0 0 []) 1 3 .Bid
      (by decide) (by decide)).2.2.2⟩

/-! ### Claim C6 -/

def c6Queue : EventQueue :=
  ⟨⟨.EventQueue, 34, 1, 34, 0, 40⟩,
    List.replicate 47 0 ++ 1 :: List.replicate 100 0, 0⟩

set_option maxRecDepth 10000 in
/-- C6 counterexample evaluation (code bug): peek_front reads at offset
EVENT_QUEUE_HEADER_LEN + register_size + head without the modulus the claim
(and the specification) require. On this queue (get_buf_len() = 68,
register_size = 40, head = 34, count = 1) the code reads the window at byte
114 and returns the all-zero Bid fill found there, while the claimed offset
EVENT_QUEUE_HEADER_LEN + ((register_size + head) mod get_buf_len()) = 46
holds a different, Ask-sided record. -/
theorem c6_peek_offset_mismatch :
    c6Queue.read_offset = 114 ∧
    EVENT_QUEUE_HEADER_LEN +
      (c6Queue.header.register_size + c6Queue.header.head)
        % c6Queue.get_buf_len = 46 ∧
    c6Queue.peek_front = some (some (.Fill .Bid 0 0 0 [] [])) ∧
    Event.deserialize (sliceAt c6Queue.buffer 46 c6Queue.header.event_size)
      c6Queue.callback_info_len = some (.Fill .Ask 0 0 0 [] []) ∧
    (Event.Fill .Bid 0 0 0 [] [] : Event) ≠ .Fill .Ask 0 0 0 [] [] :=
  ⟨by decide, by decide, by decide, by decide, by decide⟩

/-! ### Claim C8 -/

theorem EventQueue.clear_register_some (q q' : EventQueue)
    (h : q.clear_register = some q') :
    EVENT_QUEUE_HEADER_LEN + q.header.register_size ≤ q.buffer.length ∧
    1 ≤ q.header.register_size ∧
    q' = { q with buffer := writeBytes q.buffer EVENT_QUEUE_HEADER_LEN [0] } := by
  unfold EventQueue.clear_register at h
  split at h
  next hfit =>
    split at h
    next hreg =>
      simp only [Option.some.injEq] at h
      exact ⟨hfit, hreg, h.symm⟩
    · exact absurd h (by simp)
  · exact absurd h (by simp)

theorem EventQueue.write_to_register_some (q q' : EventQueue) (v : Nat)
    (h : q.write_to_register v = some q') :
    EVENT_QUEUE_HEADER_LEN + q.header.register_size ≤ q.buffer.length ∧
    9 ≤ q.header.register_size ∧
    q' = { q with
      buffer := writeBytes q.buffer EVENT_QUEUE_HEADER_LEN (1 :: leBytes 8 v) } := by
  unfold EventQueue.write_to_register at h
  split at h
  next hfit =>
    split at h
    next hreg =>
      simp only [Option.some.injEq] at h
      exact ⟨hfit, hreg, h.symm⟩
    · exact absurd h (by simp)
  · exact absurd h (by simp)

theorem EventQueue.read_register_after_clear (q q' : EventQueue)
    (h : q.clear_register = some q') :
    q'.read_register = some (.ok .Uninitialized) := by
  obtain ⟨hfit, hreg, hq'⟩ := q.clear_register_some q' h
  have hlen : q'.buffer.length = q.buffer.length := by
    rw [hq']
    exact writeBytes_length _ _ _ (by simp only [List.length_cons, List.length_nil]; omega)
  have hreg' : q'.header.register_size = q.header.register_size := by rw [hq']
  have hg : q'.buffer.getD EVENT_QUEUE_HEADER_LEN 0 = 0 := by
    rw [hq']
    have hw := writeBytes_getD q.buffer [0] EVENT_QUEUE_HEADER_LEN 0 0
      (by omega) (by simp)
    simpa using hw
  unfold EventQueue.read_register
  rw [if_pos (by rw [hreg', hlen]; exact hfit), if_pos (by rw [hreg']; exact hreg), hg]

theorem EventQueue.read_register_after_write (q q' : EventQueue) (v : Nat)
    (hv : v < u64Mod) (h : q.write_to_register v = some q') :
    q'.read_register = some (.ok (.Initialized v)) := by
  obtain ⟨hfit, hreg, hq'⟩ := q.write_to_register_some q' v h
  have hdl : (1 :: leBytes 8 v).length = 9 := by
    simp [leBytes]
  have hlen : q'.buffer.length = q.buffer.length := by
    rw [hq']
    exact writeBytes_length _ _ _ (by rw [hdl]; omega)
  have hreg' : q'.header.register_size = q.header.register_size := by rw [hq']
  have hg : q'.buffer.getD EVENT_QUEUE_HEADER_LEN 0 = 1 := by
    rw [hq']
    have hw := writeBytes_getD q.buffer (1 :: leBytes 8 v) EVENT_QUEUE_HEADER_LEN 0 0
      (by omega) (by rw [hdl]; omega)
    simpa using hw
  have hv8 : ∀ i, i < 8 →
      q'.buffer.getD (EVENT_QUEUE_HEADER_LEN + 1 + i) 0 = v / 256 ^ i % 256 := by
    intro i hi
    rw [Nat.add_assoc, hq']
    have hw := writeBytes_getD q.buffer (1 :: leBytes 8 v) EVENT_QUEUE_HEADER_LEN
      (1 + i) 0 (by omega) (by rw [hdl]; omega)
    rw [hw, Nat.add_comm 1 i, List.getD_cons_succ, leBytes_getD 8 v i hi]
  have hrd : readLE q'.buffer (EVENT_QUEUE_HEADER_LEN + 1) 8 = v := by
    rw [readLE_of_getD 8 q'.buffer (EVENT_QUEUE_HEADER_LEN + 1) v hv8]
    have h28 : (256 : Nat) ^ 8 = 2 ^ 64 := by norm_num
    rw [h28]
    exact Nat.mod_eq_of_lt hv
  unfold EventQueue.read_register
  rw [if_pos (by rw [hreg', hlen]; exact hfit),
    if_pos (by rw [hreg']; omega), hg, if_pos (by rw [hreg']; exact hreg), hrd]

def c8Header : EventQueueHeader := ⟨.EventQueue, 0, 0, 1, 0, 9⟩

def c8Buffer : List Nat :=
  List.replicate 40 0 ++ 1 :: (leBytes 8 5 ++ List.replicate 10 0)

/-- C8 counterexample: construction through EventQueue::new does not clear
the register. Attaching a buffer whose register window already encodes
Initialized(5) and reading the register back yields Initialized(5), not the
Uninitialized the claim promises for every construction (only new_safe
clears). -/
theorem c8_counterexample :
    (EventQueue.new c8Header c8Buffer 0).read_register
      = some (.ok (.Initialized 5)) ∧
    (some (Except.ok (Register.Initialized 5))
        : Option (Except IoError (Register Nat))) ≠
      some (Except.ok Register.Uninitialized) :=
  ⟨by decide, by decide⟩

/-- C8 as amended by the counterexample: construction through new_safe
clears the register, so reading it afterwards yields Uninitialized, while
construction through new leaves the buffer bytes exactly as supplied (it
performs no clearing, so a pre-existing register value survives); after
write_to_register(v) the register reads back as Initialized(v), and after
clear_register it reads back as Uninitialized. -/
theorem c8_register_lifecycle (header : EventQueueHeader) (account : List Nat)
    (cbl v : Nat) (q q1 q2 q3 : EventQueue) (hv : v < u64Mod) :
    ((EventQueue.new header account cbl).buffer = account) ∧
    (EventQueue.new_safe header account cbl = some q1 →
      q1.read_register = some (.ok .Uninitialized)) ∧
    (q.write_to_register v = some q2 →
      q2.read_register = some (.ok (.Initialized v))) ∧
    (q.clear_register = some q3 → q3.read_register = some (.ok .Uninitialized)) :=
  ⟨rfl,
    fun h => EventQueue.read_register_after_clear _ q1 h,
    fun h => EventQueue.read_register_after_write q q2 v hv h,
    fun h => EventQueue.read_register_after_clear q q3 h⟩

def c8wBuffer : List Nat := List.replicate 59 0

def c8wQueue : EventQueue := EventQueue.new c8Header c8wBuffer 0

def c8wCleared : EventQueue :=
  ⟨c8Header, writeBytes c8wBuffer 40 [0], 0⟩

def c8wWritten : EventQueue :=
  ⟨c8Header, writeBytes c8wBuffer 40 (1 :: leBytes 8 5), 0⟩

theorem c8_witness :
    (5 : Nat) < u64Mod ∧
    (EventQueue.new c8Header c8wBuffer 0).buffer = c8wBuffer ∧
    EventQueue.new_safe c8Header c8wBuffer 0 = some c8wCleared ∧
    c8wCleared.read_register = some (.ok .Uninitialized) ∧
    c8wQueue.write_to_register 5 = some c8wWritten ∧
    c8wWritten.read_register = some (.ok (.Initialized 5)) ∧
    c8wQueue.clear_register = some c8wCleared ∧
    c8wCleared.read_register = some (.ok .Uninitialized) :=
  ⟨by decide,
    (c8_register_lifecycle c8Header c8wBuffer 0 5 c8wQueue c8wCleared
      c8wWritten c8wCleared (by decide)).1,
    by decide,
    (c8_register_lifecycle c8Header c8wBuffer 0 5 c8wQueue c8wCleared
      c8wWritten c8wCleared (by decide)).2.1 (by decide),
    by decide,
    (c8_register_lifecycle c8Header c8wBuffer 0 5 c8wQueue c8wCleared
      c8wWritten c8wCleared (by decide)).2.2.1 (by decide),
    by decide,
    (c8_register_lifecycle c8Header c8wBuffer 0 5 c8wQueue c8wCleared
      c8wWritten c8wCleared (by decide)).2.2.2 (by decide)⟩
